import Mathlib

/-!
# Verification of the `nws_patch` forecast consolidation logic

Shallow embedding of `custom_components/nws_patch/__init__.py`: the
day/night forecast consolidation (`daily_forecast`, `_merge_fcasts`,
`_convert_single_fcast`) operating on forecast dictionaries.

Python dictionaries are modelled as ordered association lists from string
keys to runtime values; the typed input records (`NWSForecast` TypedDict)
are modelled as a structure together with a view `toDict` of the record as
the runtime dictionary that `{**daycast}` copies.  Python exceptions at
list indexing are modelled with `Except`.
-/

/-- Runtime values stored in a Python forecast dictionary. -/
inductive PyValue where
  | str (s : String)
  | num (n : Int)
  | bool (b : Bool)
deriving DecidableEq, Repr

/-- A Python dictionary with string keys, as an ordered association list. -/
abbrev PyDict := List (String × PyValue)

/-- Python `d[k]` lookup, `none` when the key is missing. -/
def getKey (d : PyDict) (k : String) : Option PyValue :=
  (d.find? (fun p => p.1 == k)).map (fun p => p.2)

/-- Python `d[k] = v`: replace the value at an existing key in place,
otherwise append the new key at the end. -/
def setKey (d : PyDict) (k : String) (v : PyValue) : PyDict :=
  if d.any (fun p => p.1 == k) then
    d.map (fun p => if p.1 == k then (k, v) else p)
  else
    d ++ [(k, v)]

/-- Python `del d[k]`. -/
def delKey (d : PyDict) (k : String) : PyDict :=
  d.filter (fun p => p.1 != k)

/-- Python `str.strip()`: drop leading and trailing whitespace. -/
def pystrip (s : String) : String :=
  ⟨((s.data.dropWhile Char.isWhitespace).reverse.dropWhile Char.isWhitespace).reverse⟩

/-- Lexicographic comparison of character lists by code point, as Python
compares strings. -/
def charListLt : List Char → List Char → Bool
  | [], [] => false
  | [], _ :: _ => true
  | _ :: _, [] => false
  | a :: as, b :: bs =>
    if a.toNat < b.toNat then true
    else if b.toNat < a.toNat then false
    else charListLt as bs

/-- Python `a < b` on strings. -/
def pyStrLt (a b : String) : Bool :=
  charListLt a.data b.data

/-- Python `a <= b` on strings. -/
def pyStrLe (a b : String) : Bool :=
  !pyStrLt b a

/-- The `NWSForecast` TypedDict of the source: one provider forecast
period.  `extra` holds the additional provider-specific fields that the
runtime dictionary carries and the transformation passes through. -/
structure NWSForecast where
  detailed_description : String
  datetime : String
  daytime : Bool
  native_temperature : Int
  extra : PyDict
deriving DecidableEq, Repr

instance : Inhabited NWSForecast :=
  ⟨⟨"", "", false, 0, []⟩⟩

/-- `homeassistant.components.weather.ATTR_FORECAST_NATIVE_TEMP`. -/
def ATTR_FORECAST_NATIVE_TEMP : String := "native_temperature"

/-- `homeassistant.components.weather.ATTR_FORECAST_NATIVE_TEMP_LOW`. -/
def ATTR_FORECAST_NATIVE_TEMP_LOW : String := "native_templow"

/-- `homeassistant.components.nws.const.DAYNIGHT`. -/
def DAYNIGHT : String := "daynight"

/-- The runtime dictionary underlying an `NWSForecast` record; `{**f}`
copies exactly this. -/
def NWSForecast.toDict (f : NWSForecast) : PyDict :=
  [("detailed_description", PyValue.str f.detailed_description),
   ("datetime", PyValue.str f.datetime),
   ("daytime", PyValue.bool f.daytime),
   ("native_temperature", PyValue.num f.native_temperature)] ++ f.extra

/-- One step of Python `max(..., key=...)`: replace the running maximum
only on a strictly greater key, so the first maximal element wins. -/
def pymaxStep (key : NWSForecast → String) (acc y : NWSForecast) : NWSForecast :=
  if pyStrLt (key acc) (key y) then y else acc

/-- Python `max(l, key=...)`; `none` models the `ValueError` on an empty
iterable. -/
def pymax (key : NWSForecast → String) : List NWSForecast → Option NWSForecast
  | [] => none
  | x :: xs => some (xs.foldl (pymaxStep key) x)

/-- `max((f for f in fcasts if f["daytime"]), key=lambda item: item["datetime"])`. -/
def dayCandidate (fcasts : List NWSForecast) : Option NWSForecast :=
  pymax (fun f => f.datetime) (fcasts.filter (fun f => f.daytime))

/-- `max((f for f in fcasts if not f["daytime"]), key=lambda item: item["datetime"])`. -/
def nightCandidate (fcasts : List NWSForecast) : Option NWSForecast :=
  pymax (fun f => f.datetime) (fcasts.filter (fun f => !f.daytime))

/-- `_merge_fcasts` of the source: merge a day bucket with at least a day
and a night candidate into one record; `none` when either side is empty
(the caught `ValueError`). -/
def _merge_fcasts (fcasts : List NWSForecast) : Option PyDict :=
  match dayCandidate fcasts, nightCandidate fcasts with
  | some daycast, some nightcast =>
    let description :=
      "### Day\n" ++ pystrip daycast.detailed_description
        ++ "\n\n### Night\n" ++ pystrip nightcast.detailed_description
    let merged := daycast.toDict
    let merged := setKey merged "detailed_description" (PyValue.str description)
    let merged :=
      setKey merged ATTR_FORECAST_NATIVE_TEMP_LOW (PyValue.num nightcast.native_temperature)
    some merged
  | _, _ => none

/-- `_convert_single_fcast` of the source: convert the single period of a
one-entry day bucket (`fcasts[0]`). -/
def _convert_single_fcast (fcasts : List NWSForecast) : PyDict :=
  let f := fcasts.headD default
  let new_cast := f.toDict
  let title := if !f.daytime then "Night" else "Day"
  let new_cast :=
    if !f.daytime then
      delKey (setKey new_cast ATTR_FORECAST_NATIVE_TEMP_LOW (PyValue.num f.native_temperature))
        ATTR_FORECAST_NATIVE_TEMP
    else new_cast
  let description := "### " ++ title ++ "\n" ++ pystrip f.detailed_description
  let new_cast := setKey new_cast "detailed_description" (PyValue.str description)
  delKey new_cast "daytime"

/-- A calendar date as a `(year, month, day)` triple. -/
abbrev DateKey := Nat × Nat × Nat

/-- Digit value of a character. -/
def digitVal (c : Char) : Nat := c.toNat - '0'.toNat

/-- Gregorian leap year. -/
def isLeap (y : Nat) : Bool :=
  (y % 4 == 0 && y % 100 != 0) || y % 400 == 0

/-- Days in the year before month `m` (1-based). -/
def daysBeforeMonth (m : Nat) (leap : Bool) : Nat :=
  (match m with
   | 1 => 0
   | 2 => 31
   | 3 => 59
   | 4 => 90
   | 5 => 120
   | 6 => 151
   | 7 => 181
   | 8 => 212
   | 9 => 243
   | 10 => 273
   | 11 => 304
   | _ => 334)
  + (if leap && 3 ≤ m then 1 else 0)

/-- Proleptic Gregorian day number of a calendar date, with 0001-01-01 as
day 0 (Python `date.toordinal` minus one). -/
def dateOrdinal (y m d : Nat) : Nat :=
  365 * (y - 1) + (y - 1) / 4 - (y - 1) / 100 + (y - 1) / 400
    + daysBeforeMonth m (isLeap y) + (d - 1)

/-- A parsed timestamp: the calendar date, the seconds past local
midnight, and the UTC offset in minutes (`none` for a naive datetime
carrying no `tzinfo`). -/
structure ParsedDatetime where
  date : DateKey
  secondOfDay : Nat
  tzoffset : Option Int
deriving DecidableEq, Repr

/-- Models `homeassistant.util.dt.parse_datetime` (an external
collaborator of the source) on the provider's timestamp format
`YYYY-MM-DDThh:mm:ss` with an optional UTC-offset suffix: no suffix
parses as a naive datetime, `Z` or `+HH:MM` / `-HH:MM` as an
offset-aware one; anything else fails to parse (Python `None`). -/
def parse_datetime (s : String) : Option ParsedDatetime :=
  match s.data with
  | y1 :: y2 :: y3 :: y4 :: '-' :: m1 :: m2 :: '-' :: d1 :: d2 :: 'T'
      :: h1 :: h2 :: ':' :: n1 :: n2 :: ':' :: s1 :: s2 :: rest =>
    if y1.isDigit && y2.isDigit && y3.isDigit && y4.isDigit
        && m1.isDigit && m2.isDigit && d1.isDigit && d2.isDigit
        && h1.isDigit && h2.isDigit && n1.isDigit && n2.isDigit
        && s1.isDigit && s2.isDigit then
      let date : DateKey :=
        (digitVal y1 * 1000 + digitVal y2 * 100 + digitVal y3 * 10 + digitVal y4,
         digitVal m1 * 10 + digitVal m2,
         digitVal d1 * 10 + digitVal d2)
      let sod := (digitVal h1 * 10 + digitVal h2) * 3600
        + (digitVal n1 * 10 + digitVal n2) * 60 + digitVal s1 * 10 + digitVal s2
      match rest with
      | [] => some ⟨date, sod, none⟩
      | 'Z' :: [] => some ⟨date, sod, some 0⟩
      | '+' :: o1 :: o2 :: ':' :: o3 :: o4 :: [] =>
        if o1.isDigit && o2.isDigit && o3.isDigit && o4.isDigit then
          some ⟨date, sod,
            some (((digitVal o1 * 10 + digitVal o2) * 60 + digitVal o3 * 10 + digitVal o4 : Nat)
              : Int)⟩
        else none
      | '-' :: o1 :: o2 :: ':' :: o3 :: o4 :: [] =>
        if o1.isDigit && o2.isDigit && o3.isDigit && o4.isDigit then
          some ⟨date, sod,
            some (-(((digitVal o1 * 10 + digitVal o2) * 60 + digitVal o3 * 10 + digitVal o4 : Nat)
              : Int))⟩
        else none
      | _ => none
    else none
  | _ => none

/-- A day-bucket key: the truncated datetime `date.replace(hour=0,
minute=0, second=0, microsecond=0)` as it behaves as a Python dictionary
key.  `replace` keeps `tzinfo`: a naive datetime compares by wall-clock
fields, hence by its calendar date; an offset-aware one compares by UTC
instant, hence by the instant of its local midnight. -/
inductive BucketKey where
  | naive (date : DateKey)
  | aware (utcMidnightMinutes : Int)
deriving DecidableEq, Repr

/-- The bucket key of a parsed timestamp (see `BucketKey`). -/
def truncateToDay (dt : ParsedDatetime) : BucketKey :=
  match dt.tzoffset with
  | none => BucketKey.naive dt.date
  | some off =>
    BucketKey.aware ((dateOrdinal dt.date.1 dt.date.2.1 dt.date.2.2 : Int) * 1440 - off)

/-- The instant a parsed timestamp denotes, in seconds on the proleptic
Gregorian UTC time line (a naive timestamp is taken at face value). -/
def utcInstant (dt : ParsedDatetime) : Int :=
  (dateOrdinal dt.date.1 dt.date.2.1 dt.date.2.2 : Int) * 86400 + dt.secondOfDay
    - dt.tzoffset.getD 0 * 60

/-- `bucket[date].append(item)` on a `defaultdict(list)`: append to the
existing day's list, else create the day at the end (Python dictionaries
iterate in first-insertion order). -/
def addToBucket (bs : List (BucketKey × List NWSForecast)) (k : BucketKey) (item : NWSForecast) :
    List (BucketKey × List NWSForecast) :=
  if bs.any (fun p => p.1 == k) then
    bs.map (fun p => if p.1 == k then (p.1, p.2 ++ [item]) else p)
  else
    bs ++ [(k, [item])]

/-- One iteration of the bucketing loop of `daily_forecast`: parse the
period's timestamp, skip the period when parsing fails. -/
def bucketStep (bs : List (BucketKey × List NWSForecast)) (item : NWSForecast) :
    List (BucketKey × List NWSForecast) :=
  match parse_datetime item.datetime with
  | none => bs
  | some date => addToBucket bs (truncateToDay date) item

/-- The bucketing loop of `daily_forecast` (source lines 136-143). -/
def buildBuckets (periods : List NWSForecast) : List (BucketKey × List NWSForecast) :=
  periods.foldl bucketStep []

/-- One iteration of the consolidation loop of `daily_forecast` (source
lines 149-164): the accumulator is the output list and the `tomorrow`
flag. -/
def runBucketsStep (acc : List PyDict × Bool) (b : BucketKey × List NWSForecast) :
    List PyDict × Bool :=
  if b.2.length == 1 then (acc.1 ++ [_convert_single_fcast b.2], true)
  else if 2 ≤ b.2.length then
    match _merge_fcasts b.2 with
    | some newFcast => (acc.1 ++ [newFcast], acc.2)
    | none => acc
  else acc

/-- The consolidation loop of `daily_forecast` over all buckets. -/
def runBuckets (buckets : List (BucketKey × List NWSForecast)) : List PyDict × Bool :=
  buckets.foldl runBucketsStep ([], false)

/-- The records a single bucket contributes to the output. -/
def processBucket (fcasts : List NWSForecast) : List PyDict :=
  if fcasts.length == 1 then [_convert_single_fcast fcasts]
  else if 2 ≤ fcasts.length then
    match _merge_fcasts fcasts with
    | some newFcast => [newFcast]
    | none => []
  else []

/-- Result of `daily_forecast`: Python `None`, the unaltered pass-through
forecast, or the consolidated forecast together with the
`detailed_forecast` summary the function stores on the entity. -/
inductive DailyResult where
  | noForecast
  | unaltered (periods : List NWSForecast)
  | daily (forecast : List PyDict) (detailed_forecast : String)
deriving Repr

/-- `daily_forecast` of the source (lines 113-175), on the core inputs:
the forecast mode and the original forecast list.  `Except.error` models
a raised exception (`orig_forecast[1]` raising `IndexError`). -/
def daily_forecast (mode : String) (orig_forecast : List NWSForecast) :
    Except String DailyResult :=
  if orig_forecast.isEmpty then Except.ok DailyResult.noForecast
  else if mode ≠ DAYNIGHT then Except.ok (DailyResult.unaltered orig_forecast)
  else
    let buckets := buildBuckets orig_forecast
    let res := runBuckets buckets
    let fs := if res.2 then ("Tonight", "Tomorrow") else ("Today", "Tonight")
    match orig_forecast.get? 0, orig_forecast.get? 1 with
    | some p0, some p1 =>
      Except.ok (DailyResult.daily res.1
        ("### " ++ fs.1 ++ "\n" ++ p0.detailed_description ++ "\n### " ++ fs.2 ++ "\n"
          ++ p1.detailed_description))
    | _, _ => Except.error "IndexError"

/-- The number of distinct calendar days (dates of the parseable
timestamps) present in the input. -/
def distinctDays (periods : List NWSForecast) : Nat :=
  ((periods.filterMap (fun p => (parse_datetime p.datetime).map (fun dt => dt.date))).dedup).length

/-- The number of distinct day-bucket keys (truncated datetimes, see
`BucketKey`) among the parseable timestamps of the input. -/
def distinctBucketKeys (periods : List NWSForecast) : Nat :=
  ((periods.filterMap (fun p => (parse_datetime p.datetime).map truncateToDay)).dedup).length

/-! ## Dictionary lemmas -/

theorem find?_replace_self (k : String) (v : PyValue) :
    ∀ d : PyDict, d.any (fun p => p.1 == k) = true →
      (d.map (fun p => if p.1 == k then (k, v) else p)).find? (fun p => p.1 == k) =
        some (k, v) := by
  intro d h
  induction d with
  | nil => simp at h
  | cons p d ih =>
    by_cases hp : (p.1 == k) = true
    · rw [List.map_cons, if_pos hp, List.find?_cons_of_pos _ (by simp)]
    · simp only [List.any_cons, hp, Bool.false_or] at h
      rw [List.map_cons, if_neg hp, List.find?_cons_of_neg _ (by simpa using hp)]
      exact ih h

theorem find?_replace_ne (k k' : String) (v : PyValue) (hne : k' ≠ k) :
    ∀ d : PyDict,
      (d.map (fun p => if p.1 == k then (k, v) else p)).find? (fun p => p.1 == k') =
        d.find? (fun p => p.1 == k') := by
  intro d
  induction d with
  | nil => rfl
  | cons p d ih =>
    by_cases hp : (p.1 == k) = true
    · have hpk : p.1 = k := by simpa [beq_iff_eq] using hp
      have h1 : (k == k') = false := by
        simp only [beq_eq_false_iff_ne, ne_eq]
        exact fun e => hne e.symm
      have h2 : (p.1 == k') = false := by
        simp only [beq_eq_false_iff_ne, ne_eq, hpk]
        exact fun e => hne e.symm
      rw [List.map_cons, if_pos hp, List.find?_cons_of_neg _ (by simp [h1]),
        List.find?_cons_of_neg _ (by simp [h2]), ih]
    · rw [List.map_cons, if_neg hp]
      cases hq : (p.1 == k') with
      | true =>
        simp only [List.find?, hq]
      | false =>
        rw [List.find?_cons_of_neg _ (by simp [hq]), List.find?_cons_of_neg _ (by simp [hq]), ih]

theorem find?_filter_of_imp {α : Type} (l : List α) (p q : α → Bool)
    (h : ∀ x, p x = true → q x = true) :
    (l.filter q).find? p = l.find? p := by
  induction l with
  | nil => rfl
  | cons x l ih =>
    by_cases hq : q x = true
    · rw [List.filter_cons_of_pos hq]
      cases hpx : p x with
      | true =>
        rw [List.find?_cons_of_pos _ hpx, List.find?_cons_of_pos _ hpx]
      | false =>
        rw [List.find?_cons_of_neg _ (by simp [hpx]), List.find?_cons_of_neg _ (by simp [hpx]), ih]
    · have hp : p x = false := by
        cases hpx : p x
        · rfl
        · exact absurd (h x hpx) hq
      rw [List.filter_cons_of_neg hq, List.find?_cons_of_neg _ (by simp [hp]), ih]

theorem getKey_setKey_self (d : PyDict) (k : String) (v : PyValue) :
    getKey (setKey d k v) k = some v := by
  unfold getKey setKey
  by_cases h : d.any (fun p => p.1 == k) = true
  · rw [if_pos h, find?_replace_self k v d h]
    rfl
  · rw [if_neg h, List.find?_append]
    have hnone : d.find? (fun p => p.1 == k) = none := by
      rw [List.find?_eq_none]
      intro x hx hpx
      exact h (List.any_eq_true.mpr ⟨x, hx, hpx⟩)
    simp [hnone]

theorem getKey_setKey_ne (d : PyDict) (k k' : String) (v : PyValue) (h : k' ≠ k) :
    getKey (setKey d k v) k' = getKey d k' := by
  unfold getKey setKey
  by_cases ha : d.any (fun p => p.1 == k) = true
  · rw [if_pos ha, find?_replace_ne k k' v h]
  · rw [if_neg ha, List.find?_append]
    have h1 : (k == k') = false := by
      simp only [beq_eq_false_iff_ne, ne_eq]
      exact fun e => h e.symm
    simp [List.find?_cons, h1]

theorem getKey_delKey_self (d : PyDict) (k : String) :
    getKey (delKey d k) k = none := by
  unfold getKey delKey
  have : (d.filter (fun p => p.1 != k)).find? (fun p => p.1 == k) = none := by
    rw [List.find?_eq_none]
    intro x hx hpx
    have := (List.mem_filter.mp hx).2
    simp only [bne_iff_ne, ne_eq] at this
    exact this (by simpa [beq_iff_eq] using hpx)
  simp [this]

theorem getKey_delKey_ne (d : PyDict) (k k' : String) (h : k' ≠ k) :
    getKey (delKey d k) k' = getKey d k' := by
  unfold getKey delKey
  rw [find?_filter_of_imp]
  intro x hx
  have hxk : x.1 = k' := by simpa [beq_iff_eq] using hx
  simp only [bne_iff_ne, ne_eq, hxk]
  exact h

theorem getKey_toDict_native_temperature (f : NWSForecast) :
    getKey f.toDict "native_temperature" = some (PyValue.num f.native_temperature) := rfl

theorem getKey_toDict_daytime (f : NWSForecast) :
    getKey f.toDict "daytime" = some (PyValue.bool f.daytime) := rfl

/-! ## String order lemmas -/

theorem charListLt_irrefl : ∀ l : List Char, charListLt l l = false := by
  intro l
  induction l with
  | nil => rfl
  | cons a as ih => simp [charListLt, ih]

theorem charListLt_trans (a : List Char) :
    ∀ b c : List Char, charListLt a b = true → charListLt b c = true →
      charListLt a c = true := by
  induction a with
  | nil =>
    intro b c hab hbc
    cases b with
    | nil => simp [charListLt] at hab
    | cons b bs =>
      cases c with
      | nil => simp [charListLt] at hbc
      | cons c cs => simp [charListLt]
  | cons a as ih =>
    intro b c hab hbc
    cases b with
    | nil => simp [charListLt] at hab
    | cons b bs =>
      cases c with
      | nil => simp [charListLt] at hbc
      | cons c cs =>
        simp only [charListLt] at hab hbc ⊢
        split_ifs at hab hbc ⊢ <;>
          first
            | rfl
            | omega
            | exact ih bs cs hab hbc

theorem charListLt_of_lt_of_not_lt (a : List Char) :
    ∀ b c : List Char, charListLt a b = true → charListLt c b = false →
      charListLt a c = true := by
  induction a with
  | nil =>
    intro b c hab hcb
    cases b with
    | nil => simp [charListLt] at hab
    | cons b bs =>
      cases c with
      | nil => simp [charListLt] at hcb
      | cons c cs => simp [charListLt]
  | cons a as ih =>
    intro b c hab hcb
    cases b with
    | nil => simp [charListLt] at hab
    | cons b bs =>
      cases c with
      | nil => simp [charListLt] at hcb
      | cons c cs =>
        simp only [charListLt] at hab hcb ⊢
        split_ifs at hab hcb ⊢ <;>
          first
            | rfl
            | omega
            | exact ih bs cs hab hcb

theorem pyStrLe_refl (s : String) : pyStrLe s s = true := by
  simp [pyStrLe, pyStrLt, charListLt_irrefl]

/-! ## `pymax` lemmas -/

theorem foldl_pymax_spec (key : NWSForecast → String) :
    ∀ (xs : List NWSForecast) (x : NWSForecast),
      (xs.foldl (pymaxStep key) x ∈ x :: xs) ∧
      pyStrLe (key x) (key (xs.foldl (pymaxStep key) x)) = true ∧
      ∀ z ∈ xs, pyStrLe (key z) (key (xs.foldl (pymaxStep key) x)) = true := by
  intro xs
  induction xs with
  | nil =>
    intro x
    refine ⟨List.mem_singleton.mpr rfl, pyStrLe_refl _, ?_⟩
    intro z hz
    simp at hz
  | cons y ys ih =>
    intro x
    rw [List.foldl_cons]
    cases hc : pyStrLt (key x) (key y) with
    | true =>
      have hstep : pymaxStep key x y = y := by simp [pymaxStep, hc]
      rw [hstep]
      obtain ⟨hmem, hle, hall⟩ := ih y
      refine ⟨?_, ?_, ?_⟩
      · exact List.mem_cons_of_mem _ hmem
      · -- key x < key y ≤ key r
        simp only [pyStrLe, Bool.not_eq_true', Bool.not_eq_false] at hle ⊢
        cases hrx : pyStrLt (key (ys.foldl (pymaxStep key) y)) (key x) with
        | false => rfl
        | true =>
          have : pyStrLt (key (ys.foldl (pymaxStep key) y)) (key y) = true :=
            charListLt_trans _ _ _ hrx hc
          rw [hle] at this
          exact this.symm
      · intro z hz
        rcases List.mem_cons.mp hz with h | h
        · exact h ▸ hle
        · exact hall z h
    | false =>
      have hstep : pymaxStep key x y = x := by simp [pymaxStep, hc]
      rw [hstep]
      obtain ⟨hmem, hle, hall⟩ := ih x
      refine ⟨?_, hle, ?_⟩
      · rcases List.mem_cons.mp hmem with h | h
        · rw [h]
          exact List.mem_cons_self _ _
        · exact List.mem_cons_of_mem _ (List.mem_cons_of_mem _ h)
      · intro z hz
        rcases List.mem_cons.mp hz with h | h
        · subst h
          simp only [pyStrLe, Bool.not_eq_true', Bool.not_eq_false] at hle ⊢
          cases hrz : pyStrLt (key (ys.foldl (pymaxStep key) x)) (key z) with
          | false => rfl
          | true =>
            have : pyStrLt (key (ys.foldl (pymaxStep key) x)) (key x) = true :=
              charListLt_of_lt_of_not_lt _ _ _ hrz hc
            rw [hle] at this
            exact this.symm
        · exact hall z h

theorem pymax_spec (key : NWSForecast → String) (l : List NWSForecast) (m : NWSForecast)
    (h : pymax key l = some m) :
    m ∈ l ∧ ∀ z ∈ l, pyStrLe (key z) (key m) = true := by
  cases l with
  | nil => simp [pymax] at h
  | cons x xs =>
    simp only [pymax, Option.some.injEq] at h
    obtain ⟨hmem, hle, hall⟩ := foldl_pymax_spec key xs x
    subst h
    refine ⟨hmem, ?_⟩
    intro z hz
    rcases List.mem_cons.mp hz with hzx | hzxs
    · exact hzx ▸ hle
    · exact hall z hzxs

/-! ## Bucketing and consolidation-loop lemmas -/

theorem runBuckets_foldl_eq :
    ∀ (bs : List (BucketKey × List NWSForecast)) (l : List PyDict) (t : Bool),
      bs.foldl runBucketsStep (l, t) =
        (l ++ bs.flatMap (fun b => processBucket b.2),
         t || bs.any (fun b => b.2.length == 1)) := by
  intro bs
  induction bs with
  | nil =>
    intro l t
    simp
  | cons b bs ih =>
    intro l t
    rw [List.foldl_cons]
    by_cases h1 : (b.2.length == 1) = true
    · have hstep : runBucketsStep (l, t) b = (l ++ [_convert_single_fcast b.2], true) := by
        simp [runBucketsStep, h1]
      have hpb : processBucket b.2 = [_convert_single_fcast b.2] := by
        simp [processBucket, h1]
      rw [hstep, ih, List.flatMap_cons, hpb, List.any_cons, h1]
      simp
    · by_cases h2 : 2 ≤ b.2.length
      · cases hm : _merge_fcasts b.2 with
        | some newFcast =>
          have hstep : runBucketsStep (l, t) b = (l ++ [newFcast], t) := by
            simp [runBucketsStep, h1, h2, hm]
          have hpb : processBucket b.2 = [newFcast] := by
            simp [processBucket, h1, h2, hm]
          rw [hstep, ih, List.flatMap_cons, hpb, List.any_cons, eq_false_of_ne_true h1]
          simp
        | none =>
          have hstep : runBucketsStep (l, t) b = (l, t) := by
            simp [runBucketsStep, h1, h2, hm]
          have hpb : processBucket b.2 = [] := by
            simp [processBucket, h1, h2, hm]
          rw [hstep, ih, List.flatMap_cons, hpb, List.any_cons, eq_false_of_ne_true h1]
          simp
      · have hstep : runBucketsStep (l, t) b = (l, t) := by
          simp [runBucketsStep, h1, h2]
        have hpb : processBucket b.2 = [] := by
          simp [processBucket, h1, h2]
        rw [hstep, ih, List.flatMap_cons, hpb, List.any_cons, eq_false_of_ne_true h1]
        simp

theorem runBuckets_eq (bs : List (BucketKey × List NWSForecast)) :
    runBuckets bs =
      (bs.flatMap (fun b => processBucket b.2), bs.any (fun b => b.2.length == 1)) := by
  rw [runBuckets, runBuckets_foldl_eq]
  simp

theorem processBucket_length_le (fcasts : List NWSForecast) :
    (processBucket fcasts).length ≤ 1 := by
  unfold processBucket
  split
  · simp
  · split
    · cases hm : _merge_fcasts fcasts <;> simp
    · simp

theorem flatMap_processBucket_length_le (bs : List (BucketKey × List NWSForecast)) :
    (bs.flatMap (fun b => processBucket b.2)).length ≤ bs.length := by
  induction bs with
  | nil => simp
  | cons b bs ih =>
    rw [List.flatMap_cons]
    simp only [List.length_append, List.length_cons]
    have := processBucket_length_le b.2
    omega

theorem runBuckets_fst_length_le (bs : List (BucketKey × List NWSForecast)) :
    (runBuckets bs).1.length ≤ bs.length := by
  rw [runBuckets_eq]
  exact flatMap_processBucket_length_le bs

theorem map_fst_addToBucket (bs : List (BucketKey × List NWSForecast)) (k : BucketKey)
    (item : NWSForecast) :
    (addToBucket bs k item).map Prod.fst =
      if bs.any (fun p => p.1 == k) then bs.map Prod.fst
      else bs.map Prod.fst ++ [k] := by
  unfold addToBucket
  split
  · rw [List.map_map]
    exact List.map_congr_left (fun p _ => by
      simp only [Function.comp]
      split <;> rfl)
  · simp


theorem buildBuckets_fold_keys (periods : List NWSForecast) :
    ∀ bs : List (BucketKey × List NWSForecast),
      (bs.map Prod.fst).Nodup →
      ((periods.foldl bucketStep bs).map Prod.fst).Nodup ∧
      ∀ x ∈ (periods.foldl bucketStep bs).map Prod.fst,
        x ∈ bs.map Prod.fst ∨
          x ∈ periods.filterMap (fun p => (parse_datetime p.datetime).map truncateToDay) := by
  induction periods with
  | nil =>
    intro bs h
    simp only [List.foldl_nil]
    exact ⟨h, fun x hx => Or.inl hx⟩
  | cons p ps ih =>
    intro bs h
    rw [List.foldl_cons]
    cases hp : parse_datetime p.datetime with
    | none =>
      have hstep : bucketStep bs p = bs := by simp [bucketStep, hp]
      rw [hstep]
      obtain ⟨h1, h2⟩ := ih bs h
      refine ⟨h1, fun x hx => ?_⟩
      rcases h2 x hx with hl | hr
      · exact Or.inl hl
      · right
        simp only [List.filterMap_cons, hp, Option.map_none']
        exact hr
    | some dt =>
      have hstep : bucketStep bs p = addToBucket bs (truncateToDay dt) p := by
        simp [bucketStep, hp]
      rw [hstep]
      by_cases ha : (bs.any fun q => q.1 == truncateToDay dt) = true
      · have hkeys : (addToBucket bs (truncateToDay dt) p).map Prod.fst = bs.map Prod.fst := by
          rw [map_fst_addToBucket, if_pos ha]
        obtain ⟨h1, h2⟩ := ih (addToBucket bs (truncateToDay dt) p) (by rw [hkeys]; exact h)
        refine ⟨h1, fun x hx => ?_⟩
        rcases h2 x hx with hl | hr
        · rw [hkeys] at hl
          exact Or.inl hl
        · right
          simp only [List.filterMap_cons, hp, Option.map_some']
          exact List.mem_cons_of_mem _ hr
      · have hnotin : truncateToDay dt ∉ bs.map Prod.fst := by
          intro hk
          rcases List.mem_map.mp hk with ⟨q, hq, hq1⟩
          exact ha (List.any_eq_true.mpr ⟨q, hq, by simp [hq1]⟩)
        have hkeys : (addToBucket bs (truncateToDay dt) p).map Prod.fst =
            bs.map Prod.fst ++ [truncateToDay dt] := by
          rw [map_fst_addToBucket, if_neg ha]
        have hnodup : ((addToBucket bs (truncateToDay dt) p).map Prod.fst).Nodup := by
          rw [hkeys, List.nodup_append]
          refine ⟨h, List.nodup_singleton _, ?_⟩
          intro a hax hay
          rw [List.mem_singleton] at hay
          exact hnotin (hay ▸ hax)
        obtain ⟨h1, h2⟩ := ih _ hnodup
        refine ⟨h1, fun x hx => ?_⟩
        rcases h2 x hx with hl | hr
        · rw [hkeys] at hl
          rcases List.mem_append.mp hl with hbs | hk
          · exact Or.inl hbs
          · right
            rw [List.mem_singleton] at hk
            subst hk
            simp only [List.filterMap_cons, hp, Option.map_some']
            exact List.mem_cons_self _ _
        · right
          simp only [List.filterMap_cons, hp, Option.map_some']
          exact List.mem_cons_of_mem _ hr

theorem nodup_subset_length_le_dedup {α : Type} [DecidableEq α] (l m : List α)
    (hn : l.Nodup) (hs : ∀ x ∈ l, x ∈ m) : l.length ≤ m.dedup.length := by
  have hsub : l ⊆ m.dedup := fun x hx => List.mem_dedup.mpr (hs x hx)
  exact (hn.subperm hsub).length_le

theorem buildBuckets_length_le (periods : List NWSForecast) :
    (buildBuckets periods).length ≤ distinctBucketKeys periods := by
  obtain ⟨h1, h2⟩ := buildBuckets_fold_keys periods [] (by simp)
  have h2a : ∀ x ∈ (periods.foldl bucketStep []).map Prod.fst,
      x ∈ periods.filterMap (fun p => (parse_datetime p.datetime).map truncateToDay) := by
    intro x hx
    rcases h2 x hx with hl | hr
    · simp at hl
    · exact hr
  have hb := nodup_subset_length_le_dedup _ _ h1 h2a
  rw [List.length_map] at hb
  exact hb

/-! ## Concrete fixtures -/

/-- Constant alias normalisation. -/
theorem ATTR_low_eq : ATTR_FORECAST_NATIVE_TEMP_LOW = "native_templow" := rfl

/-- Constant alias normalisation. -/
theorem ATTR_temp_eq : ATTR_FORECAST_NATIVE_TEMP = "native_temperature" := rfl

/-- A daytime period. -/
def pd : NWSForecast :=
  ⟨"  Sunny  ", "2023-06-01T06:00:00-04:00", true, 70, [("wind", PyValue.str "5 mph")]⟩

/-- The nighttime period of the same day. -/
def pn : NWSForecast :=
  ⟨" Clear ", "2023-06-01T18:00:00-04:00", false, 50, []⟩

/-- A later daytime period of the same day. -/
def pd2 : NWSForecast :=
  ⟨"Hot", "2023-06-01T08:00:00-04:00", true, 80, []⟩

/-- A period with an unparseable timestamp. -/
def uA : NWSForecast := ⟨"A", "bad", false, 0, []⟩

/-- Another period with an unparseable timestamp. -/
def uB : NWSForecast := ⟨"B", "also bad", true, 0, []⟩

/-- A nighttime period. -/
def nA : NWSForecast := ⟨"N1", "2023-06-02T18:00:00-04:00", false, 40, []⟩

/-- A second nighttime period of the same day. -/
def nB : NWSForecast := ⟨"N2", "2023-06-02T23:00:00-04:00", false, 42, []⟩

/-! ## Claims -/

/-- C1: on a day bucket whose selected day candidate is `d` and selected
night candidate is `n`, the pair merger succeeds and produces a record
whose description is `"### Day\n" ++ strip d ++ "\n\n### Night\n" ++
strip n`, whose temperature is `d`'s, whose `temperature_low` is `n`'s
temperature, and whose every other field is taken from the day
candidate's dictionary. -/
theorem c1_merge_pair_fields (fcasts : List NWSForecast) (d n : NWSForecast)
    (hd : dayCandidate fcasts = some d) (hn : nightCandidate fcasts = some n) :
    ∃ m, _merge_fcasts fcasts = some m ∧
      getKey m "detailed_description" =
        some (PyValue.str ("### Day\n" ++ pystrip d.detailed_description
          ++ "\n\n### Night\n" ++ pystrip n.detailed_description)) ∧
      getKey m "native_temperature" = some (PyValue.num d.native_temperature) ∧
      getKey m "native_templow" = some (PyValue.num n.native_temperature) ∧
      ∀ k, k ≠ "detailed_description" → k ≠ "native_templow" →
        getKey m k = getKey d.toDict k := by
  have hm : _merge_fcasts fcasts =
      some (setKey
        (setKey d.toDict "detailed_description"
          (PyValue.str ("### Day\n" ++ pystrip d.detailed_description
            ++ "\n\n### Night\n" ++ pystrip n.detailed_description)))
        "native_templow" (PyValue.num n.native_temperature)) := by
    unfold _merge_fcasts
    rw [hd, hn]
    rfl
  refine ⟨_, hm, ?_, ?_, ?_, ?_⟩
  · rw [getKey_setKey_ne _ _ _ _ (by decide), getKey_setKey_self]
  · rw [getKey_setKey_ne _ _ _ _ (by decide), getKey_setKey_ne _ _ _ _ (by decide)]
    exact getKey_toDict_native_temperature d
  · rw [getKey_setKey_self]
  · intro k hk1 hk2
    rw [getKey_setKey_ne _ _ _ _ hk2, getKey_setKey_ne _ _ _ _ hk1]

/-- Witness for C1 at a concrete one-day bucket. -/
theorem c1_witness :
    ∃ m, _merge_fcasts [pd, pn] = some m ∧
      getKey m "detailed_description" =
        some (PyValue.str ("### Day\n" ++ pystrip pd.detailed_description
          ++ "\n\n### Night\n" ++ pystrip pn.detailed_description)) ∧
      getKey m "native_temperature" = some (PyValue.num pd.native_temperature) ∧
      getKey m "native_templow" = some (PyValue.num pn.native_temperature) ∧
      ∀ k, k ≠ "detailed_description" → k ≠ "native_templow" →
        getKey m k = getKey pd.toDict k :=
  c1_merge_pair_fields [pd, pn] pd pn rfl rfl

/-- C2 is violated by the code: `_merge_fcasts` copies the day candidate's
dictionary and never deletes the `daytime` key, so the merged record of a
day/night pair still contains `daytime = True` (while the declared
`NewForecast` output type and `_convert_single_fcast` both drop it). -/
theorem c2_daytime_retained :
    (_merge_fcasts [pd, pn]).map (fun m => getKey m "daytime") =
      some (some (PyValue.bool true)) := rfl

/-- C3 as amended: the orchestrator returns without an uncaught exception
whenever merging is disabled, the input is empty, or the input has at
least two periods.  (With merging enabled and exactly one period, the
summary construction indexes `orig_forecast[1]` and raises.) -/
theorem c3_no_uncaught_error (mode : String) (periods : List NWSForecast)
    (h : mode ≠ DAYNIGHT ∨ periods = [] ∨ 2 ≤ periods.length) :
    ∃ r, daily_forecast mode periods = Except.ok r := by
  unfold daily_forecast
  by_cases he : periods.isEmpty = true
  · rw [if_pos he]
    exact ⟨_, rfl⟩
  · rw [if_neg he]
    by_cases hm : mode ≠ DAYNIGHT
    · rw [if_pos hm]
      exact ⟨_, rfl⟩
    · rw [if_neg hm]
      have hlen : 2 ≤ periods.length := by
        rcases h with h1 | h2 | h3
        · exact absurd h1 hm
        · exact absurd (by rw [h2]; rfl) he
        · exact h3
      obtain ⟨p0, hp0⟩ : ∃ p0, periods.get? 0 = some p0 := by
        cases hq : periods.get? 0 with
        | none =>
          rw [List.get?_eq_none] at hq
          omega
        | some p => exact ⟨p, rfl⟩
      obtain ⟨p1, hp1⟩ : ∃ p1, periods.get? 1 = some p1 := by
        cases hq : periods.get? 1 with
        | none =>
          rw [List.get?_eq_none] at hq
          omega
        | some p => exact ⟨p, rfl⟩
      rw [hp0, hp1]
      exact ⟨_, rfl⟩

/-- Counterexample to C3 as stated: with merging enabled and exactly one
period, the orchestrator raises `IndexError` while building the summary
from `orig_forecast[1]`. -/
theorem c3_counterexample :
    daily_forecast DAYNIGHT [pd] = Except.error "IndexError" := rfl

/-- Witness for the amended C3. -/
theorem c3_witness :
    ∃ r, daily_forecast "hourly" [uA] = Except.ok r :=
  c3_no_uncaught_error "hourly" [uA] (Or.inl (by decide))

/-- C7: with merging disabled and a non-empty input, the orchestrator is
the identity pass-through. -/
theorem c7_passthrough (mode : String) (periods : List NWSForecast)
    (h1 : periods ≠ []) (h2 : mode ≠ DAYNIGHT) :
    daily_forecast mode periods = Except.ok (DailyResult.unaltered periods) := by
  unfold daily_forecast
  have he : ¬ periods.isEmpty = true := by
    cases periods with
    | nil => exact absurd rfl h1
    | cons p ps => simp
  rw [if_neg he, if_pos h2]

/-- Witness for C7. -/
theorem c7_witness :
    daily_forecast "hourly" [uA] = Except.ok (DailyResult.unaltered [uA]) :=
  c7_passthrough "hourly" [uA] (by decide) (by decide)

/-- C8: a bucket of two or more entries all carrying the same day/night
flag cannot be merged (`_merge_fcasts` returns `none`), and the
consolidation loop drops exactly that bucket while processing every other
bucket unchanged. -/
theorem c8_unmergeable_day_skipped (flag : Bool) (fcasts : List NWSForecast)
    (h2 : 2 ≤ fcasts.length) (hall : ∀ f ∈ fcasts, f.daytime = flag) :
    _merge_fcasts fcasts = none ∧
      ∀ (bs1 bs2 : List (BucketKey × List NWSForecast)) (k : BucketKey),
        runBuckets (bs1 ++ (k, fcasts) :: bs2) = runBuckets (bs1 ++ bs2) := by
  have hmerge : _merge_fcasts fcasts = none := by
    cases flag with
    | true =>
      have hf : fcasts.filter (fun f => !f.daytime) = [] := by
        rw [List.filter_eq_nil_iff]
        intro f hfm
        simp [hall f hfm]
      have hn : nightCandidate fcasts = none := by
        rw [nightCandidate, hf]
        rfl
      unfold _merge_fcasts
      rw [hn]
      cases hd2 : dayCandidate fcasts <;> rfl
    | false =>
      have hf : fcasts.filter (fun f => f.daytime) = [] := by
        rw [List.filter_eq_nil_iff]
        intro f hfm
        simp [hall f hfm]
      have hd : dayCandidate fcasts = none := by
        rw [dayCandidate, hf]
        rfl
      unfold _merge_fcasts
      rw [hd]
  have hne1 : ((fcasts.length == 1)) = false := by
    simp only [beq_eq_false_iff_ne, ne_eq]
    omega
  have hpb : processBucket fcasts = [] := by
    unfold processBucket
    rw [hne1, if_neg (by simp), if_pos h2, hmerge]
  refine ⟨hmerge, ?_⟩
  intro bs1 bs2 k
  rw [runBuckets_eq, runBuckets_eq]
  simp [List.flatMap_append, List.flatMap_cons, List.any_append, List.any_cons, hpb, hne1]

/-- Witness for C8 at a concrete bucket of two nighttime entries. -/
theorem c8_witness :
    _merge_fcasts [nA, nB] = none ∧
      runBuckets [(BucketKey.naive (2023, 6, 2), [nA, nB])] = runBuckets [] := by
  have h := c8_unmergeable_day_skipped false [nA, nB] (by decide) (by decide)
  exact ⟨h.1, h.2 [] [] (BucketKey.naive (2023, 6, 2))⟩

/-- C9: converting a single nighttime period retitles the description to
`"### Night\n" ++ strip description`, moves the temperature to
`temperature_low`, removes the `temperature` and `daytime` fields, and
carries every other field over unchanged. -/
theorem c9_convert_single_night (p : NWSForecast) (h : p.daytime = false) :
    getKey (_convert_single_fcast [p]) "detailed_description" =
        some (PyValue.str ("### Night\n" ++ pystrip p.detailed_description)) ∧
      getKey (_convert_single_fcast [p]) "native_templow" =
        some (PyValue.num p.native_temperature) ∧
      getKey (_convert_single_fcast [p]) "native_temperature" = none ∧
      getKey (_convert_single_fcast [p]) "daytime" = none ∧
      ∀ k, k ≠ "detailed_description" → k ≠ "native_temperature" →
        k ≠ "native_templow" → k ≠ "daytime" →
          getKey (_convert_single_fcast [p]) k = getKey p.toDict k := by
  have hc : _convert_single_fcast [p] =
      delKey
        (setKey
          (delKey
            (setKey p.toDict "native_templow" (PyValue.num p.native_temperature))
            "native_temperature")
          "detailed_description"
          (PyValue.str ("### Night\n" ++ pystrip p.detailed_description)))
        "daytime" := by
    simp only [_convert_single_fcast, List.headD_cons, h, Bool.not_false, if_true]
    rfl
  rw [hc]
  refine ⟨?_, ?_, ?_, ?_, ?_⟩
  · rw [getKey_delKey_ne _ _ _ (by decide), getKey_setKey_self]
  · rw [getKey_delKey_ne _ _ _ (by decide), getKey_setKey_ne _ _ _ _ (by decide),
      getKey_delKey_ne _ _ _ (by decide), getKey_setKey_self]
  · rw [getKey_delKey_ne _ _ _ (by decide), getKey_setKey_ne _ _ _ _ (by decide),
      getKey_delKey_self]
  · rw [getKey_delKey_self]
  · intro k hk1 hk2 hk3 hk4
    rw [getKey_delKey_ne _ _ _ hk4, getKey_setKey_ne _ _ _ _ hk1,
      getKey_delKey_ne _ _ _ hk2, getKey_setKey_ne _ _ _ _ hk3]

/-- Witness for C9 at the concrete nighttime period. -/
theorem c9_witness :
    getKey (_convert_single_fcast [pn]) "detailed_description" =
        some (PyValue.str ("### Night\n" ++ pystrip pn.detailed_description)) ∧
      getKey (_convert_single_fcast [pn]) "native_templow" =
        some (PyValue.num pn.native_temperature) ∧
      getKey (_convert_single_fcast [pn]) "native_temperature" = none ∧
      getKey (_convert_single_fcast [pn]) "daytime" = none ∧
      ∀ k, k ≠ "detailed_description" → k ≠ "native_temperature" →
        k ≠ "native_templow" → k ≠ "daytime" →
          getKey (_convert_single_fcast [pn]) k = getKey pn.toDict k :=
  c9_convert_single_night pn rfl

/-- Evaluation of the orchestrator on an input of at least two periods in
day/night mode. -/
theorem daily_forecast_daynight_eq (p0 p1 : NWSForecast) (rest : List NWSForecast) :
    daily_forecast DAYNIGHT (p0 :: p1 :: rest) =
      Except.ok (DailyResult.daily
        (runBuckets (buildBuckets (p0 :: p1 :: rest))).1
        ("### "
          ++ (if (runBuckets (buildBuckets (p0 :: p1 :: rest))).2
              then ("Tonight", "Tomorrow") else ("Today", "Tonight")).1
          ++ "\n" ++ p0.detailed_description ++ "\n### "
          ++ (if (runBuckets (buildBuckets (p0 :: p1 :: rest))).2
              then ("Tonight", "Tomorrow") else ("Today", "Tonight")).2
          ++ "\n" ++ p1.detailed_description)) := by
  unfold daily_forecast
  rw [if_neg (by simp), if_neg (by simp)]
  rfl

/-- Evaluation of the orchestrator on a single period in day/night mode:
`orig_forecast[1]` raises. -/
theorem daily_forecast_daynight_single (q : NWSForecast) :
    daily_forecast DAYNIGHT [q] = Except.error "IndexError" := by
  unfold daily_forecast
  rw [if_neg (by simp), if_neg (by simp)]
  rfl

/-- The `tomorrow` flag computed by the consolidation loop is exactly
"some bucket has exactly one entry". -/
theorem runBuckets_snd_eq (bs : List (BucketKey × List NWSForecast)) :
    (runBuckets bs).2 = bs.any (fun b => b.2.length == 1) := by
  rw [runBuckets_eq]

/-- Bucketing skips every period whose timestamp does not parse. -/
theorem foldl_bucketStep_unparseable :
    ∀ (periods : List NWSForecast) (bs : List (BucketKey × List NWSForecast)),
      (∀ p ∈ periods, parse_datetime p.datetime = none) →
      periods.foldl bucketStep bs = bs := by
  intro periods
  induction periods with
  | nil =>
    intro bs _
    rfl
  | cons p ps ih =>
    intro bs h
    rw [List.foldl_cons]
    have hstep : bucketStep bs p = bs := by
      simp [bucketStep, h p (List.mem_cons_self _ _)]
    rw [hstep]
    exact ih bs (fun q hq => h q (List.mem_cons_of_mem _ hq))

/-- Daytime period on calendar day 2023-06-01 at UTC offset -04:00. -/
def q1 : NWSForecast := ⟨"D1", "2023-06-01T06:00:00-04:00", true, 70, []⟩

/-- Nighttime period on the same calendar day at UTC offset -05:00. -/
def q2 : NWSForecast := ⟨"N1", "2023-06-01T18:00:00-05:00", false, 50, []⟩

/-- Counterexample to C4 as stated: two periods of one calendar day whose
UTC offsets differ have unequal truncated datetimes (`replace` keeps
`tzinfo` and aware keys compare by instant), so they land in two separate
buckets and the orchestrator emits two records for one distinct calendar
day. -/
theorem c4_counterexample :
    daily_forecast DAYNIGHT [q1, q2] =
      Except.ok (DailyResult.daily (runBuckets (buildBuckets [q1, q2])).1
        "### Tonight\nD1\n### Tomorrow\nN1") ∧
    ¬(((runBuckets (buildBuckets [q1, q2])).1).length ≤ distinctDays [q1, q2]) :=
  ⟨rfl, by decide⟩

/-- C4 as amended: in day/night mode the number of consolidated records
is at most the number of distinct day-bucket keys (truncated datetimes:
the calendar date for a naive timestamp, the instant of local midnight
for an offset-aware one) among the parseable timestamps; this equals the
number of distinct calendar days only when all timestamps agree in
awareness and offset. -/
theorem c4_output_le_distinct_bucket_keys (periods : List NWSForecast) (recs : List PyDict)
    (s : String)
    (h : daily_forecast DAYNIGHT periods = Except.ok (DailyResult.daily recs s)) :
    recs.length ≤ distinctBucketKeys periods := by
  cases periods with
  | nil =>
    have he : daily_forecast DAYNIGHT [] = Except.ok DailyResult.noForecast := rfl
    rw [he] at h
    exact absurd h (by simp)
  | cons p0 tail =>
    cases tail with
    | nil =>
      rw [daily_forecast_daynight_single p0] at h
      exact absurd h (by simp)
    | cons p1 rest =>
      rw [daily_forecast_daynight_eq p0 p1 rest] at h
      have hr : recs = (runBuckets (buildBuckets (p0 :: p1 :: rest))).1 := by
        simp only [Except.ok.injEq, DailyResult.daily.injEq] at h
        exact h.1.symm
      rw [hr]
      exact le_trans (runBuckets_fst_length_le _) (buildBuckets_length_le _)

/-- Witness for C4 at a concrete two-period input. -/
theorem c4_witness : List.length ([] : List PyDict) ≤ distinctBucketKeys [uA, uB] :=
  c4_output_le_distinct_bucket_keys [uA, uB] [] "### Today\nA\n### Tonight\nB" rfl

/-- Daytime period whose timestamp string is lexicographically greater
yet denotes the earlier instant (10:00Z). -/
def dx1 : NWSForecast := ⟨"DX1", "2023-06-01T06:00:00-04:00", true, 71, []⟩

/-- Daytime period whose timestamp string is lexicographically smaller
yet denotes the later instant (10:30Z). -/
def dx2 : NWSForecast := ⟨"DX2", "2023-06-01T05:30:00-05:00", true, 72, []⟩

/-- Counterexample to C5 as stated: `max` compares the raw timestamp
strings, so it picks `dx1`, whose string is greater, even though the
other daytime entry `dx2` denotes the strictly later instant in time. -/
theorem c5_counterexample :
    dayCandidate [dx1, dx2] = some dx1 ∧
    dx2 ∈ [dx1, dx2] ∧ dx2.daytime = true ∧ dx1 ≠ dx2 ∧
    ((parse_datetime dx1.datetime).map utcInstant).isSome = true ∧
    ((parse_datetime dx2.datetime).map utcInstant).isSome = true ∧
    ((parse_datetime dx1.datetime).map utcInstant).getD 0 <
      ((parse_datetime dx2.datetime).map utcInstant).getD 0 :=
  ⟨rfl, by simp, rfl, by decide, rfl, rfl, by decide⟩

/-- C5 as amended: whenever a bucket has a daytime entry, the selected
day candidate is a daytime entry of the bucket whose raw timestamp
string is greatest in Python's lexicographic string order among the
daytime entries (ties resolved to the first); the night candidate is
selected analogously.  This holds for buckets of any size, but the
string-maximal entry need not denote the most recent instant when UTC
offsets differ. -/
theorem c5_latest_candidate_selection (fcasts : List NWSForecast) :
    ((∃ f ∈ fcasts, f.daytime = true) →
      ∃ d, dayCandidate fcasts = some d ∧ d ∈ fcasts ∧ d.daytime = true ∧
        ∀ f ∈ fcasts, f.daytime = true → pyStrLe f.datetime d.datetime = true) ∧
    ((∃ f ∈ fcasts, f.daytime = false) →
      ∃ n, nightCandidate fcasts = some n ∧ n ∈ fcasts ∧ n.daytime = false ∧
        ∀ f ∈ fcasts, f.daytime = false → pyStrLe f.datetime n.datetime = true) := by
  constructor
  · rintro ⟨f0, hf0, hday0⟩
    have hmem : f0 ∈ fcasts.filter (fun f => f.daytime) :=
      List.mem_filter.mpr ⟨hf0, hday0⟩
    cases hfl : fcasts.filter (fun f => f.daytime) with
    | nil =>
      rw [hfl] at hmem
      simp at hmem
    | cons x xs =>
      have hsome : dayCandidate fcasts =
          some (xs.foldl (pymaxStep (fun f => f.datetime)) x) := by
        rw [dayCandidate, hfl]
        rfl
      obtain ⟨hm, hle⟩ :=
        pymax_spec (fun f => f.datetime) (x :: xs)
          (xs.foldl (pymaxStep (fun f => f.datetime)) x) rfl
      have hmf : xs.foldl (pymaxStep (fun f => f.datetime)) x ∈
          fcasts.filter (fun f => f.daytime) := by
        rw [hfl]
        exact hm
      refine ⟨_, hsome, (List.mem_filter.mp hmf).1, (List.mem_filter.mp hmf).2, ?_⟩
      intro f hf hfd
      have hfx : f ∈ x :: xs := by
        rw [← hfl]
        exact List.mem_filter.mpr ⟨hf, hfd⟩
      exact hle f hfx
  · rintro ⟨f0, hf0, hday0⟩
    have hmem : f0 ∈ fcasts.filter (fun f => !f.daytime) :=
      List.mem_filter.mpr ⟨hf0, by simp [hday0]⟩
    cases hfl : fcasts.filter (fun f => !f.daytime) with
    | nil =>
      rw [hfl] at hmem
      simp at hmem
    | cons x xs =>
      have hsome : nightCandidate fcasts =
          some (xs.foldl (pymaxStep (fun f => f.datetime)) x) := by
        rw [nightCandidate, hfl]
        rfl
      obtain ⟨hm, hle⟩ :=
        pymax_spec (fun f => f.datetime) (x :: xs)
          (xs.foldl (pymaxStep (fun f => f.datetime)) x) rfl
      have hmf : xs.foldl (pymaxStep (fun f => f.datetime)) x ∈
          fcasts.filter (fun f => !f.daytime) := by
        rw [hfl]
        exact hm
      have hflag : (xs.foldl (pymaxStep (fun f => f.datetime)) x).daytime = false := by
        have := (List.mem_filter.mp hmf).2
        simpa using this
      refine ⟨_, hsome, (List.mem_filter.mp hmf).1, hflag, ?_⟩
      intro f hf hfd
      have hfx : f ∈ x :: xs := by
        rw [← hfl]
        exact List.mem_filter.mpr ⟨hf, by simp [hfd]⟩
      exact hle f hfx

/-- Witness for C5 at a bucket with two daytime entries and one nighttime
entry. -/
theorem c5_witness :
    (∃ d, dayCandidate [pd, pd2, pn] = some d ∧ d ∈ [pd, pd2, pn] ∧ d.daytime = true ∧
      ∀ f ∈ [pd, pd2, pn], f.daytime = true → pyStrLe f.datetime d.datetime = true) ∧
    (∃ n, nightCandidate [pd, pd2, pn] = some n ∧ n ∈ [pd, pd2, pn] ∧ n.daytime = false ∧
      ∀ f ∈ [pd, pd2, pn], f.daytime = false → pyStrLe f.datetime n.datetime = true) :=
  ⟨(c5_latest_candidate_selection [pd, pd2, pn]).1 ⟨pd, by simp, rfl⟩,
   (c5_latest_candidate_selection [pd, pd2, pn]).2 ⟨pn, by simp, rfl⟩⟩

/-- C6: on an input of at least two periods in day/night mode, the side
summary is built from the original first two periods' descriptions, with
the ("Tonight", "Tomorrow") titles exactly when some bucket has a single
entry and ("Today", "Tonight") otherwise. -/
theorem c6_summary (p0 p1 : NWSForecast) (rest : List NWSForecast) :
    ∃ recs, daily_forecast DAYNIGHT (p0 :: p1 :: rest) =
      Except.ok (DailyResult.daily recs
        ("### "
          ++ (if (buildBuckets (p0 :: p1 :: rest)).any (fun b => b.2.length == 1)
              then "Tonight" else "Today")
          ++ "\n" ++ p0.detailed_description ++ "\n### "
          ++ (if (buildBuckets (p0 :: p1 :: rest)).any (fun b => b.2.length == 1)
              then "Tomorrow" else "Tonight")
          ++ "\n" ++ p1.detailed_description)) := by
  refine ⟨(runBuckets (buildBuckets (p0 :: p1 :: rest))).1, ?_⟩
  rw [daily_forecast_daynight_eq p0 p1 rest, runBuckets_snd_eq]
  cases hany : (buildBuckets (p0 :: p1 :: rest)).any (fun b => b.2.length == 1) <;> rfl

/-- C10: in day/night mode with at least two periods the orchestrator
returns a consolidated list (never `None` and never an exception), and
when no period's timestamp parses that list is empty rather than `None`. -/
theorem c10_empty_list_not_none (periods : List NWSForecast) (h : 2 ≤ periods.length) :
    ∃ recs s, daily_forecast DAYNIGHT periods = Except.ok (DailyResult.daily recs s) ∧
      ((∀ p ∈ periods, parse_datetime p.datetime = none) → recs = []) := by
  cases periods with
  | nil => simp at h
  | cons p0 tail =>
    cases tail with
    | nil =>
      simp only [List.length_cons, List.length_nil] at h
      omega
    | cons p1 rest =>
      refine ⟨(runBuckets (buildBuckets (p0 :: p1 :: rest))).1, _,
        daily_forecast_daynight_eq p0 p1 rest, ?_⟩
      intro hall
      have hb : buildBuckets (p0 :: p1 :: rest) = [] :=
        foldl_bucketStep_unparseable (p0 :: p1 :: rest) [] hall
      rw [hb]
      rfl

/-- Witness for C10 at a concrete input with unparseable timestamps. -/
theorem c10_witness :
    ∃ recs s, daily_forecast DAYNIGHT [uA, uB] = Except.ok (DailyResult.daily recs s) ∧
      ((∀ p ∈ [uA, uB], parse_datetime p.datetime = none) → recs = []) :=
  c10_empty_list_not_none [uA, uB] (by decide)
